import Mathlib

/-!
Verification of the C/C++-to-flowchart synthesizer in `src/CppParser.ts`
(class `CppParser`).  The statement normalizer (`preprocessCode`), the label
sanitizer (`cleanLabel`), the condition extractor (`extractCondition`) and the
stack-driven flow-graph builder (`parseFlowchart`) are embedded shallowly.
Statements are lists of characters; the relevant JavaScript string semantics
(first-occurrence `replace`, the `\s` character class, `trim`, `split('\n')`,
`indexOf`, non-greedy global block-comment removal, unanchored regex search
with backtracking for `extractCondition`) are modelled explicitly.  The
builder's emitted mermaid lines are modelled as structured node and edge
records carrying exactly the data interpolated into each emitted line.
-/

/-- The double-quote character. -/
def quoteChar : Char := Char.ofNat 34

/-- The single-quote character. -/
def apostChar : Char := Char.ofNat 39

/-- The JavaScript whitespace class: the characters matched by `\s`, and
also the set stripped by `String.prototype.trim`. -/
def isJsWhitespace (c : Char) : Bool :=
  c == ' ' || c == '\t' || c == '\n' || c == '\r' || c == '\x0b' || c == '\x0c' ||
  c == '\u00a0' || c == '\u1680' || (0x2000 ≤ c.toNat && c.toNat ≤ 0x200A) ||
  c == '\u2028' || c == '\u2029' || c == '\u202f' || c == '\u205f' ||
  c == '\u3000' || c == '\ufeff'

/-- JavaScript line terminators: the characters NOT matched by `.` in a regex
without the `s` flag. -/
def isLineTerm (c : Char) : Bool :=
  c == '\n' || c == '\r' || c == '\u2028' || c == '\u2029'

/-- `String.prototype.trim`: strip JavaScript whitespace from both ends. -/
def trimJs (cs : List Char) : List Char :=
  ((cs.dropWhile isJsWhitespace).reverse.dropWhile isJsWhitespace).reverse

/-- Scan forward to the first occurrence of the two-character close delimiter
of a block comment; return the remainder after it (`none` when absent).
This is the non-greedy `[\s\S]*?\*\/` part of the block-comment regex. -/
def dropBlockClose : List Char → Option (List Char)
  | [] => none
  | c :: rest =>
    if c = '*' then
      match rest with
      | '/' :: r2 => some r2
      | _ => dropBlockClose rest
    else dropBlockClose rest

/-- Iteration core of `code.replace(/\/\*[\s\S]*?\*\//g, '')`: at each
position, a comment opener followed (anywhere later) by a close delimiter is
removed together with everything in between, and scanning resumes after it;
an opener with no later close delimiter is left in place (the regex cannot
match it, and then it cannot match anywhere later either).  The fuel
argument only bounds the recursion; one unit per consumed character
(`cs.length + 1` units never run out). -/
def removeBlockCommentsGo : Nat → List Char → List Char
  | 0, cs => cs
  | Nat.succ fuel, cs =>
    match cs with
    | [] => []
    | '/' :: '*' :: rest =>
      match dropBlockClose rest with
      | some r => removeBlockCommentsGo fuel r
      | none => cs
    | c :: rest => c :: removeBlockCommentsGo fuel rest

/-- Step 1 of `preprocessCode`: remove `/* ... */` block comments. -/
def removeBlockComments (cs : List Char) : List Char :=
  removeBlockCommentsGo (cs.length + 1) cs

/-- Step 2 of `preprocessCode`, per physical line: drop everything from the
first `//` on (JavaScript `line.indexOf('//')` + `substring`). -/
def stripLineComment : List Char → List Char
  | '/' :: '/' :: _ => []
  | c :: rest => c :: stripLineComment rest
  | [] => []

/-- JavaScript `split('\n')`. -/
def splitLines : List Char → List (List Char)
  | [] => [[]]
  | '\n' :: rest => [] :: splitLines rest
  | c :: rest =>
    match splitLines rest with
    | [] => [[c]]
    | l :: ls => (c :: l) :: ls

/-- JavaScript `array.join('\n')`. -/
def joinLines : List (List Char) → List Char
  | [] => []
  | [l] => l
  | l :: ls => l ++ '\n' :: joinLines ls

/-- `CppParser.preprocessCode`: remove block comments, remove per-line `//`
comment suffixes, trim every line, drop empty lines, re-join with `\n`. -/
def preprocessCode (code : List Char) : List Char :=
  joinLines
    ((((splitLines (removeBlockComments code)).map stripLineComment).map
      trimJs).filter (fun l => !l.isEmpty))

/-- The line list the builder loop of `parseFlowchart` iterates over:
`cleanCode.split('\n').map(l => l.trim()).filter(l => l.length > 0)`. -/
def linesOf (code : List Char) : List (List Char) :=
  ((splitLines (preprocessCode code)).map trimJs).filter (fun l => !l.isEmpty)

/-- Replace a character occurrence-wise by a string: one pass of a global
single-character regex replacement such as `.replace(/&/g, "&amp;")`. -/
def escapeAll (t : Char) (rep : List Char) : List Char → List Char
  | [] => []
  | c :: rest => (if c = t then rep else [c]) ++ escapeAll t rep rest

/-- `.replace(/"/g, "'")`, character-wise. -/
def quoteRep (c : Char) : Char := if c = quoteChar then apostChar else c

/-- Membership in the character class `[\[\]\{\}]`. -/
def isBracketChar (c : Char) : Prop :=
  c = '\x5b' ∨ c = '\x5d' ∨ c = '\x7b' ∨ c = '\x7d'

instance (c : Char) : Decidable (isBracketChar c) := by
  unfold isBracketChar; infer_instance

/-- `.replace(/[\[\]\{\}]/g, " ")`, character-wise. -/
def brackRep (c : Char) : Char := if isBracketChar c then ' ' else c

/-- `CppParser.cleanLabel`: quotes to apostrophes, brackets and braces to
spaces, then sequential entity escaping of `&`, `<`, `>`, then truncation of
labels longer than 50 characters to 47 characters plus an ellipsis. -/
def cleanLabel (text : List Char) : List Char :=
  let s1 := text.map quoteRep
  let s2 := s1.map brackRep
  let s3 :=
    escapeAll '>' ("&gt;").data
      (escapeAll '<' ("&lt;").data (escapeAll '&' ("&amp;").data s2))
  if 50 < s3.length then s3.take 47 ++ ("...").data else s3

/-- Everything strictly before the last close-parenthesis: the greedy
capture `(.*)` followed by `\)` within the searched region. -/
def beforeLastClose (cs : List Char) : List Char :=
  (((cs.reverse).dropWhile (fun c => !(c == ')'))).drop 1).reverse

/-- Attempt of the regex `keyword\s*\((.*)\)` at one fixed start position:
the keyword verbatim, then any whitespace, then `(`, then—inside the
longest line-terminator-free region—the capture runs to the last `)`.
Returns the captured group text. -/
def matchKwAt (cs kw : List Char) : Option (List Char) :=
  if kw.isPrefixOf cs then
    match (cs.drop kw.length).dropWhile isJsWhitespace with
    | '(' :: tail =>
      let region := tail.takeWhile (fun c => !(isLineTerm c))
      if region.contains ')' then some (beforeLastClose region) else none
    | _ => none
  else none

/-- Unanchored regex search: try `matchKwAt` at every start position from
the left; first success wins (JavaScript `String.prototype.match`). -/
def findKwParen : List Char → List Char → Option (List Char)
  | [], kw => matchKwAt [] kw
  | c :: rest, kw =>
    match matchKwAt (c :: rest) kw with
    | some r => some r
    | none => findKwParen rest kw

/-- JavaScript `text.replace(pattern, '')` with a plain-string pattern:
remove the first occurrence only. -/
def replaceFirstStr : List Char → List Char → List Char
  | [], _ => []
  | c :: rest, pat =>
    if pat.isPrefixOf (c :: rest) then (c :: rest).drop pat.length
    else c :: replaceFirstStr rest pat

/-- JavaScript `text.replace(':', '')`: remove the first occurrence of a
single character. -/
def replaceFirstChar : List Char → Char → List Char
  | [], _ => []
  | c :: rest, t => if c = t then rest else c :: replaceFirstChar rest t

/-- Does the capture end with a stray `)` (JavaScript `endsWith(')')`). -/
def endsWithClose (cs : List Char) : Bool :=
  match cs.getLast? with
  | some c => c == ')'
  | none => false

/-- `CppParser.extractCondition`: the first parenthesized group after the
keyword (with one trailing stray `)` removed, trimmed).  The source guards
the extraction path with `if (match && match[1])`, and an empty JavaScript
string is falsy: both a failed search and an EMPTY captured group take the
fallback — the first keyword occurrence and every parenthesis removed from
the text, trimmed. -/
def extractCondition (text kw : List Char) : List Char :=
  match findKwParen text kw with
  | some captured =>
    if !captured.isEmpty then
      let cond := if endsWithClose captured then captured.dropLast else captured
      trimJs cond
    else trimJs ((replaceFirstStr text kw).filter (fun c => !(c == '(' || c == ')')))
  | none =>
    trimJs ((replaceFirstStr text kw).filter (fun c => !(c == '(' || c == ')')))

/-- `p` is a verbatim prefix of the statement (JavaScript `startsWith`). -/
def startsWithL (cs : List Char) (p : String) : Bool :=
  p.data.isPrefixOf cs

/-- The keywords of the regex `^(struct|class|enum|union|namespace)\s+`. -/
def ignoreKws : List String := ["struct", "class", "enum", "union", "namespace"]

/-- The regex `^(struct|class|enum|union|namespace)\s+`: one of the keywords
at the start, immediately followed by a whitespace character. -/
def startsIgnoreKw (cs : List Char) : Bool :=
  ignoreKws.any (fun kw =>
    kw.data.isPrefixOf cs &&
    (match cs.drop kw.data.length with
     | c :: _ => isJsWhitespace c
     | [] => false))

/-- Preprocessor directives, `using namespace`, and template headers are
skipped outright. -/
def isSkipLine (cs : List Char) : Bool :=
  startsWithL cs "#" || startsWithL cs "using namespace" || startsWithL cs "template"

/-- The keywords of the jump regex `^(return|break|continue|goto|throw)`. -/
def jumpKws : List String := ["return", "break", "continue", "goto", "throw"]

/-- The regex `^(return|break|continue|goto|throw)`. -/
def isJump (cs : List Char) : Bool :=
  jumpKws.any (fun kw => kw.data.isPrefixOf cs)

/-- Mermaid node shape, determined by the delimiters of the emitted node
declaration line. -/
inductive Shape where
  | square       -- `[...]`
  | brace        -- `{...}`
  | round        -- `(...)`
  | doubleCircle -- `((...))`
  | angle        -- `<...>`
deriving DecidableEq

/-- One emitted node declaration line: id, display label, shape and the
`:::class` style suffix (absent on the synthetic `Start` node). -/
structure Node where
  id : List Char
  label : List Char
  shape : Shape
  cls : Option (List Char)
deriving DecidableEq

/-- One emitted edge declaration line: endpoints, dashed (`-.->`)
versus solid (`-->`), and the optional inline `-- tag -->` text. -/
structure Edge where
  src : List Char
  tgt : List Char
  dashed : Bool
  tag : Option (List Char)
deriving DecidableEq

/-- One `switchStack` entry: `{ id: currentId, hasDefault: false }`. -/
structure SwitchCtx where
  id : List Char
  hasDefault : Bool
deriving DecidableEq

/-- The mutable state of the builder loop in `parseFlowchart`:
`nodeIdCounter`, `stack` (scope stack, top at the head here — the TS array
grows at the end), `switchStack`, `ignoreBlockLevel`, plus the node and edge
declarations emitted so far (most recent first). -/
structure BState where
  counter : Nat
  stack : List (List Char)
  switchStack : List SwitchCtx
  ignore : Nat
  nodes : List Node
  edges : List Edge
deriving DecidableEq

/-- The value JavaScript yields for an out-of-bounds array read interpolated
into a template string (`stack[stack.length - 1]` on an empty array). -/
def jsUndefined : List Char := ("undefined").data

/-- `Node${n}`. -/
def nodeName (n : Nat) : List Char := ("Node").data ++ (Nat.repr n).data

/-- The id of the synthetic root node. -/
def startId : List Char := ("Start").data

/-- Replace the top of the scope stack when non-empty
(`if (stack.length > 0) stack[stack.length - 1] = currentId`). -/
def replaceHead : List (List Char) → List Char → List (List Char)
  | [], _ => []
  | _ :: t, x => x :: t

/-- Closing-brace handling (lines 61–67 of `CppParser.ts`): when the scope
stack is deeper than the root, compare its top against the top of the switch
stack, pop the switch stack on a match, then pop the scope stack. -/
def popScope (st : BState) : BState :=
  if 1 < st.stack.length then
    { st with
      switchStack :=
        match st.switchStack with
        | s :: rest =>
          if st.stack.headD jsUndefined = s.id then rest else s :: rest
        | [] => [],
      stack := st.stack.tail }
  else st

/-- Rule 1 of the classifier (lines 80–85 of `CppParser.ts`): `if` /
`else if`. -/
def ruleIf (st : BState) (text : List Char) : BState :=
  let currentId := nodeName st.counter
  let parentId := st.stack.headD jsUndefined
  let condition := extractCondition (cleanLabel text) ("if").data
  { st with
    counter := st.counter + 1,
    nodes := { id := currentId, label := condition ++ (" ?").data,
               shape := Shape.brace, cls := some ("decision").data } :: st.nodes,
    edges := { src := parentId, tgt := currentId, dashed := false, tag := none } :: st.edges,
    stack := currentId :: st.stack }

/-- Rule 2 (lines 87–96): `else`: pop the previous branch scope when deeper
than the root, connect from the new stack top, push. -/
def ruleElse (st : BState) (_text : List Char) : BState :=
  let currentId := nodeName st.counter
  let stack1 := if 1 < st.stack.length then st.stack.tail else st.stack
  { st with
    counter := st.counter + 1,
    nodes := { id := currentId, label := ("else").data,
               shape := Shape.square, cls := some ("default").data } :: st.nodes,
    edges := (if 0 < stack1.length then
                [{ src := stack1.headD jsUndefined, tgt := currentId,
                   dashed := false, tag := none }]
              else []) ++ st.edges,
    stack := currentId :: stack1 }

/-- Rule 3 (lines 98–104): `switch`: push onto both the scope stack and the
switch stack. -/
def ruleSwitch (st : BState) (text : List Char) : BState :=
  let currentId := nodeName st.counter
  let parentId := st.stack.headD jsUndefined
  let condition := extractCondition (cleanLabel text) ("switch").data
  { st with
    counter := st.counter + 1,
    nodes := { id := currentId, label := ("Switch: ").data ++ condition,
               shape := Shape.brace, cls := some ("switchNode").data } :: st.nodes,
    edges := { src := parentId, tgt := currentId, dashed := false, tag := none } :: st.edges,
    stack := currentId :: st.stack,
    switchStack := { id := currentId, hasDefault := false } :: st.switchStack }

/-- Rule 4 (lines 106–118): `case` / `default`: target the top of the switch
stack (the parent when none is open), tag the edge with the case label (the
display label with its first colon removed), replace the scope-stack top. -/
def ruleCase (st : BState) (text : List Char) : BState :=
  let currentId := nodeName st.counter
  let parentId := st.stack.headD jsUndefined
  let switchNode :=
    match st.switchStack with
    | s :: _ => s.id
    | [] => parentId
  let caseLabel := replaceFirstChar (cleanLabel text) ':'
  { st with
    counter := st.counter + 1,
    nodes := { id := currentId, label := caseLabel,
               shape := Shape.square, cls := some ("decision").data } :: st.nodes,
    edges := { src := switchNode, tgt := currentId, dashed := false,
               tag := some caseLabel } :: st.edges,
    stack := replaceHead st.stack currentId }

/-- Rule 5 (lines 120–127): `while` / `for`. -/
def ruleLoop (st : BState) (text : List Char) : BState :=
  let currentId := nodeName st.counter
  let parentId := st.stack.headD jsUndefined
  let kind : String := if startsWithL text "while" = true then "while" else "for"
  let condition := extractCondition (cleanLabel text) kind.data
  { st with
    counter := st.counter + 1,
    nodes := { id := currentId, label := kind.data ++ (": ").data ++ condition,
               shape := Shape.brace, cls := some ("decision").data } :: st.nodes,
    edges := { src := parentId, tgt := currentId, dashed := false, tag := none } :: st.edges,
    stack := currentId :: st.stack }

/-- Rule 6 (lines 129–133): `do`. -/
def ruleDo (st : BState) (_text : List Char) : BState :=
  let currentId := nodeName st.counter
  let parentId := st.stack.headD jsUndefined
  { st with
    counter := st.counter + 1,
    nodes := { id := currentId, label := ("DO loop start").data,
               shape := Shape.round, cls := some ("decision").data } :: st.nodes,
    edges := { src := parentId, tgt := currentId, dashed := false, tag := none } :: st.edges,
    stack := currentId :: st.stack }

/-- Rule 7, first half (lines 135–139): `try`. -/
def ruleTry (st : BState) (_text : List Char) : BState :=
  let currentId := nodeName st.counter
  let parentId := st.stack.headD jsUndefined
  { st with
    counter := st.counter + 1,
    nodes := { id := currentId, label := ("TRY Block").data,
               shape := Shape.angle, cls := some ("catchNode").data } :: st.nodes,
    edges := { src := parentId, tgt := currentId, dashed := false, tag := none } :: st.edges,
    stack := currentId :: st.stack }

/-- Rule 7, second half (lines 140–146): `catch`: pop the try scope when
deeper than the root, dashed edge from the new stack top, push. -/
def ruleCatch (st : BState) (text : List Char) : BState :=
  let currentId := nodeName st.counter
  let stack1 := if 1 < st.stack.length then st.stack.tail else st.stack
  let condition := extractCondition (cleanLabel text) ("catch").data
  { st with
    counter := st.counter + 1,
    nodes := { id := currentId, label := ("CATCH: ").data ++ condition,
               shape := Shape.angle, cls := some ("catchNode").data } :: st.nodes,
    edges := (if 0 < stack1.length then
                [{ src := stack1.headD jsUndefined, tgt := currentId,
                   dashed := true, tag := none }]
              else []) ++ st.edges,
    stack := currentId :: stack1 }

/-- Rule 8 (lines 149–153): jump statements: one terminator node, one solid
edge from the parent, no stack change. -/
def ruleJump (st : BState) (text : List Char) : BState :=
  let currentId := nodeName st.counter
  let parentId := st.stack.headD jsUndefined
  { st with
    counter := st.counter + 1,
    nodes := { id := currentId, label := cleanLabel text,
               shape := Shape.doubleCircle, cls := some ("terminator").data } :: st.nodes,
    edges := { src := parentId, tgt := currentId, dashed := false, tag := none } :: st.edges }

/-- Rule 9 (lines 155–163): any other statement: `process` when it contains
a parenthesis (call heuristic) else `default`; replace the scope-stack top. -/
def ruleNormal (st : BState) (text : List Char) : BState :=
  let currentId := nodeName st.counter
  let parentId := st.stack.headD jsUndefined
  let typeClass : String := if text.contains '(' = true then "process" else "default"
  { st with
    counter := st.counter + 1,
    nodes := { id := currentId, label := cleanLabel text,
               shape := Shape.square, cls := some typeClass.data } :: st.nodes,
    edges := { src := parentId, tgt := currentId, dashed := false, tag := none } :: st.edges,
    stack := replaceHead st.stack currentId }

/-- The statement classifier of `parseFlowchart` (lines 74–163): the rules
in their priority order, first match wins. -/
def classify (st : BState) (text : List Char) : BState :=
  if startsWithL text "if" = true ∨ startsWithL text "else if" = true then ruleIf st text
  else if startsWithL text "else" = true then ruleElse st text
  else if startsWithL text "switch" = true then ruleSwitch st text
  else if startsWithL text "case" = true ∨ startsWithL text "default" = true then ruleCase st text
  else if startsWithL text "while" = true ∨ startsWithL text "for" = true then ruleLoop st text
  else if startsWithL text "do" = true then ruleDo st text
  else if startsWithL text "try" = true then ruleTry st text
  else if startsWithL text "catch" = true then ruleCatch st text
  else if isJump text = true then ruleJump st text
  else ruleNormal st text

/-- One iteration of the builder loop of `parseFlowchart` (lines 33–164):
the ignore-block rules, the skip rules, the brace handling, then the
classifier. -/
def step (st : BState) (text : List Char) : BState :=
  if startsIgnoreKw text = true then
    if text.contains '\x7b' = true then { st with ignore := st.ignore + 1 } else st
  else if isSkipLine text = true then st
  else if text.contains '\x7b' = true ∧ text.contains '\x7d' = false ∧ 0 < st.ignore then
    { st with ignore := st.ignore + 1 }
  else if text.contains '\x7b' = true ∧ text.contains '\x7d' = false ∧
          text = ("\x7b").data then st
  else if text.contains '\x7d' = true then
    if 0 < st.ignore then { st with ignore := st.ignore - 1 }
    else if text = ("\x7d").data ∨ text = ("\x7d;").data then popScope st
    else classify (popScope st) text
  else if 0 < st.ignore then st
  else classify st text

/-- The initial builder state: counter 0, scope stack `["Start"]`, empty
switch stack, ignore level 0, nothing emitted. -/
def initState : BState :=
  { counter := 0, stack := [startId], switchStack := [], ignore := 0,
    nodes := [], edges := [] }

/-- Run the builder loop over a statement list. -/
def runLines (lines : List (List Char)) : BState :=
  lines.foldl step initState

/-- The set of node and edge declarations of one output text. -/
structure Flowchart where
  nodes : List Node
  edges : List Edge
deriving DecidableEq

/-- The synthetic root node declared inline by `Start((START)) --> Node0;`. -/
def startNode : Node :=
  { id := startId, label := ("START").data, shape := Shape.doubleCircle, cls := none }

/-- The synthetic edge `Start((START)) --> Node0;`, emitted before the loop
regardless of whether a `Node0` declaration will ever exist. -/
def startEdge : Edge :=
  { src := startId, tgt := nodeName 0, dashed := false, tag := none }

/-- `CppParser.parseFlowchart`: preprocess, split into statements, run the
builder, and collect all node and edge declarations of the output (the
synthetic `Start` declarations first, then in emission order). -/
def parseFlowchart (code : String) : Flowchart :=
  let st := runLines (linesOf code.data)
  { nodes := startNode :: st.nodes.reverse, edges := startEdge :: st.edges.reverse }

/-- The declared node ids of a builder state, most recent first. -/
def nodeIds (st : BState) : List (List Char) := st.nodes.map Node.id

/-- The declared node ids of an output. -/
def flowIds (f : Flowchart) : List (List Char) := f.nodes.map Node.id

/-- Well-formedness of an output in the sense of §8 of the specification:
every edge references only node ids that are also declared as nodes. -/
def WellFormed (f : Flowchart) : Prop :=
  ∀ e ∈ f.edges, e.src ∈ flowIds f ∧ e.tgt ∈ flowIds f

/-- Characters that break the mermaid node-declaration syntax: the double
quote (the label delimiter) and the square/curly bracket characters (the
shape delimiters). -/
def mermaidUnsafe (c : Char) : Prop := c = quoteChar ∨ isBracketChar c

instance (c : Char) : Decidable (mermaidUnsafe c) := by
  unfold mermaidUnsafe; infer_instance

/-- The builder invariant carried through the statement loop: the scope
stack is never empty, scope-stack entries and switch-stack entries are
`Start` or declared node ids, every emitted edge connects declared ids (the
source possibly `Start`), the node counter counts the emitted nodes, and
`Node0` is declared as soon as any node is. -/
structure BInv (st : BState) : Prop where
  stackNe : st.stack ≠ []
  stackOk : ∀ x ∈ st.stack, x = startId ∨ x ∈ nodeIds st
  swOk : ∀ s ∈ st.switchStack, s.id ∈ nodeIds st
  edgesOk : ∀ e ∈ st.edges, (e.src = startId ∨ e.src ∈ nodeIds st) ∧ e.tgt ∈ nodeIds st
  counterLen : st.counter = st.nodes.length
  node0 : st.nodes ≠ [] → ("Node0").data ∈ nodeIds st

theorem nodeName_zero : nodeName 0 = ("Node0").data := by decide

theorem headD_mem {l : List (List Char)} (h : l ≠ []) : l.headD jsUndefined ∈ l := by
  cases l with
  | nil => exact absurd rfl h
  | cons a t => exact List.mem_cons_self a t

theorem mem_of_tail {x : List Char} {l : List (List Char)} (h : x ∈ l.tail) : x ∈ l := by
  cases l with
  | nil => simp at h
  | cons a t => exact List.mem_cons_of_mem a h

theorem replaceHead_ne {l : List (List Char)} {x : List Char} (h : l ≠ []) :
    replaceHead l x ≠ [] := by
  cases l with
  | nil => exact absurd rfl h
  | cons a t => simp [replaceHead]

theorem mem_replaceHead {y x : List Char} {l : List (List Char)}
    (h : y ∈ replaceHead l x) : y = x ∨ y ∈ l := by
  cases l with
  | nil => simp [replaceHead] at h
  | cons a t =>
    rcases List.mem_cons.mp h with h1 | h1
    · exact Or.inl h1
    · exact Or.inr (List.mem_cons_of_mem a h1)

theorem ite_tail_subset (st : BState) {x : List Char}
    (h : x ∈ (if 1 < st.stack.length then st.stack.tail else st.stack)) :
    x ∈ st.stack := by
  split at h
  · exact mem_of_tail h
  · exact h

theorem ite_tail_ne (st : BState) (h : st.stack ≠ []) :
    (if 1 < st.stack.length then st.stack.tail else st.stack) ≠ [] := by
  split
  · rename_i hlen
    have h0 : 0 < st.stack.tail.length := by
      rw [List.length_tail]; omega
    exact List.ne_nil_of_length_pos h0
  · exact h

theorem parent_ok (st : BState) (h : BInv st) :
    st.stack.headD jsUndefined = startId ∨ st.stack.headD jsUndefined ∈ nodeIds st :=
  h.stackOk _ (headD_mem h.stackNe)

theorem inv_mk (st : BState) (h : BInv st)
    (lbl : List Char) (sh : Shape) (cl : Option (List Char))
    (newStack : List (List Char)) (newSw : List SwitchCtx) (newEdges : List Edge)
    (hne : newStack ≠ [])
    (hstack : ∀ x ∈ newStack, x = startId ∨ x ∈ nodeName st.counter :: nodeIds st)
    (hsw : ∀ s ∈ newSw, s.id ∈ nodeName st.counter :: nodeIds st)
    (hedges : ∀ e ∈ newEdges,
        ((e.src = startId ∨ e.src ∈ nodeName st.counter :: nodeIds st) ∧
          e.tgt ∈ nodeName st.counter :: nodeIds st) ∨ e ∈ st.edges) :
    BInv { counter := st.counter + 1, stack := newStack, switchStack := newSw,
           ignore := st.ignore,
           nodes := { id := nodeName st.counter, label := lbl, shape := sh,
                      cls := cl } :: st.nodes,
           edges := newEdges } := by
  refine ⟨hne, ?_, ?_, ?_, ?_, ?_⟩
  · intro x hx
    simpa [nodeIds] using hstack x hx
  · intro s hs
    simpa [nodeIds] using hsw s hs
  · intro e he
    rcases hedges e he with hgood | hold
    · simpa [nodeIds] using hgood
    · have h2 := h.edgesOk e hold
      simp only [nodeIds, List.map_cons] at h2 ⊢
      exact ⟨h2.1.imp id (List.mem_cons_of_mem _), List.mem_cons_of_mem _ h2.2⟩
  · simp [h.counterLen]
  · intro _
    by_cases hn : st.nodes = []
    · have hc : st.counter = 0 := by rw [h.counterLen, hn]; rfl
      simp only [nodeIds, List.map_cons, List.mem_cons]
      exact Or.inl (by rw [hc]; exact nodeName_zero.symm)
    · have h0 := h.node0 hn
      simp only [nodeIds, List.map_cons, List.mem_cons] at h0 ⊢
      exact Or.inr h0

theorem push_stack_ok (st : BState) (h : BInv st) :
    ∀ x ∈ nodeName st.counter :: st.stack,
      x = startId ∨ x ∈ nodeName st.counter :: nodeIds st := by
  intro x hx
  rcases List.mem_cons.mp hx with rfl | hx2
  · exact Or.inr (List.mem_cons_self _ _)
  · exact (h.stackOk x hx2).imp id (List.mem_cons_of_mem _)

theorem keep_stack_ok (st : BState) (h : BInv st) :
    ∀ x ∈ st.stack, x = startId ∨ x ∈ nodeName st.counter :: nodeIds st := by
  intro x hx
  exact (h.stackOk x hx).imp id (List.mem_cons_of_mem _)

theorem replace_stack_ok (st : BState) (h : BInv st) :
    ∀ x ∈ replaceHead st.stack (nodeName st.counter),
      x = startId ∨ x ∈ nodeName st.counter :: nodeIds st := by
  intro x hx
  rcases mem_replaceHead hx with rfl | hx2
  · exact Or.inr (List.mem_cons_self _ _)
  · exact (h.stackOk x hx2).imp id (List.mem_cons_of_mem _)

theorem keep_sw_ok (st : BState) (h : BInv st) :
    ∀ s ∈ st.switchStack, s.id ∈ nodeName st.counter :: nodeIds st := by
  intro s hs
  exact List.mem_cons_of_mem _ (h.swOk s hs)

theorem parent_edge_ok (st : BState) (h : BInv st) {d : Bool} {tg : Option (List Char)} :
    ∀ e ∈ ({ src := st.stack.headD jsUndefined, tgt := nodeName st.counter,
             dashed := d, tag := tg } : Edge) :: st.edges,
      ((e.src = startId ∨ e.src ∈ nodeName st.counter :: nodeIds st) ∧
        e.tgt ∈ nodeName st.counter :: nodeIds st) ∨ e ∈ st.edges := by
  intro e he
  rcases List.mem_cons.mp he with rfl | he2
  · exact Or.inl ⟨(parent_ok st h).imp id (List.mem_cons_of_mem _), List.mem_cons_self _ _⟩
  · exact Or.inr he2

theorem popPush_stack_ok (st : BState) (h : BInv st) :
    ∀ x ∈ nodeName st.counter :: (if 1 < st.stack.length then st.stack.tail else st.stack),
      x = startId ∨ x ∈ nodeName st.counter :: nodeIds st := by
  intro x hx
  rcases List.mem_cons.mp hx with rfl | hx2
  · exact Or.inr (List.mem_cons_self _ _)
  · exact (h.stackOk x (ite_tail_subset st hx2)).imp id (List.mem_cons_of_mem _)

theorem popPush_edges_ok (st : BState) (h : BInv st) {d : Bool} :
    ∀ e ∈ (if 0 < (if 1 < st.stack.length then st.stack.tail else st.stack).length then
             [({ src := (if 1 < st.stack.length then st.stack.tail else st.stack).headD jsUndefined,
                 tgt := nodeName st.counter, dashed := d, tag := none } : Edge)]
           else []) ++ st.edges,
      ((e.src = startId ∨ e.src ∈ nodeName st.counter :: nodeIds st) ∧
        e.tgt ∈ nodeName st.counter :: nodeIds st) ∨ e ∈ st.edges := by
  intro e he
  rcases List.mem_append.mp he with h1 | h1
  · by_cases hpos : 0 < (if 1 < st.stack.length then st.stack.tail else st.stack).length
    · rw [if_pos hpos] at h1
      rcases List.mem_singleton.mp h1 with rfl
      refine Or.inl ⟨?_, List.mem_cons_self _ _⟩
      have hnil : (if 1 < st.stack.length then st.stack.tail else st.stack) ≠ [] :=
        List.ne_nil_of_length_pos hpos
      exact (h.stackOk _ (ite_tail_subset st (headD_mem hnil))).imp id (List.mem_cons_of_mem _)
    · rw [if_neg hpos] at h1
      simp at h1
  · exact Or.inr h1

theorem case_edge_ok (st : BState) (_h : BInv st) (src tg : List Char)
    (hsrc : src = startId ∨ src ∈ nodeIds st) :
    ∀ e ∈ ({ src := src, tgt := nodeName st.counter, dashed := false,
             tag := some tg } : Edge) :: st.edges,
      ((e.src = startId ∨ e.src ∈ nodeName st.counter :: nodeIds st) ∧
        e.tgt ∈ nodeName st.counter :: nodeIds st) ∨ e ∈ st.edges := by
  intro e he
  rcases List.mem_cons.mp he with rfl | he2
  · exact Or.inl ⟨hsrc.imp id (List.mem_cons_of_mem _), List.mem_cons_self _ _⟩
  · exact Or.inr he2

theorem inv_ruleIf (st : BState) (text : List Char) (h : BInv st) :
    BInv (ruleIf st text) :=
  inv_mk st h _ _ _ _ _ _ (List.cons_ne_nil _ _) (push_stack_ok st h)
    (keep_sw_ok st h) (parent_edge_ok st h)

theorem inv_ruleElse (st : BState) (text : List Char) (h : BInv st) :
    BInv (ruleElse st text) :=
  inv_mk st h _ _ _ _ _ _ (List.cons_ne_nil _ _) (popPush_stack_ok st h)
    (keep_sw_ok st h) (popPush_edges_ok st h)

theorem inv_ruleSwitch (st : BState) (text : List Char) (h : BInv st) :
    BInv (ruleSwitch st text) := by
  refine inv_mk st h _ _ _ _ _ _ (List.cons_ne_nil _ _) (push_stack_ok st h)
    ?_ (parent_edge_ok st h)
  intro s hs
  rcases List.mem_cons.mp hs with rfl | hs2
  · exact List.mem_cons_self _ _
  · exact List.mem_cons_of_mem _ (h.swOk s hs2)

theorem inv_ruleCase (st : BState) (text : List Char) (h : BInv st) :
    BInv (ruleCase st text) := by
  cases hsw : st.switchStack with
  | nil =>
    simp only [ruleCase, hsw]
    exact inv_mk st h _ _ _ _ _ _ (replaceHead_ne h.stackNe) (replace_stack_ok st h)
      (fun s hs => absurd hs (List.not_mem_nil s))
      (case_edge_ok st h _ _ (parent_ok st h))
  | cons s0 rest =>
    have hsw2 : ∀ s ∈ s0 :: rest, s.id ∈ nodeIds st := by rw [← hsw]; exact h.swOk
    simp only [ruleCase, hsw]
    exact inv_mk st h _ _ _ _ _ _ (replaceHead_ne h.stackNe) (replace_stack_ok st h)
      (fun s hs => List.mem_cons_of_mem _ (hsw2 s hs))
      (case_edge_ok st h _ _ (Or.inr (hsw2 s0 (List.mem_cons_self _ _))))

theorem inv_ruleLoop (st : BState) (text : List Char) (h : BInv st) :
    BInv (ruleLoop st text) :=
  inv_mk st h _ _ _ _ _ _ (List.cons_ne_nil _ _) (push_stack_ok st h)
    (keep_sw_ok st h) (parent_edge_ok st h)

theorem inv_ruleDo (st : BState) (text : List Char) (h : BInv st) :
    BInv (ruleDo st text) :=
  inv_mk st h _ _ _ _ _ _ (List.cons_ne_nil _ _) (push_stack_ok st h)
    (keep_sw_ok st h) (parent_edge_ok st h)

theorem inv_ruleTry (st : BState) (text : List Char) (h : BInv st) :
    BInv (ruleTry st text) :=
  inv_mk st h _ _ _ _ _ _ (List.cons_ne_nil _ _) (push_stack_ok st h)
    (keep_sw_ok st h) (parent_edge_ok st h)

theorem inv_ruleCatch (st : BState) (text : List Char) (h : BInv st) :
    BInv (ruleCatch st text) :=
  inv_mk st h _ _ _ _ _ _ (List.cons_ne_nil _ _) (popPush_stack_ok st h)
    (keep_sw_ok st h) (popPush_edges_ok st h)

theorem inv_ruleJump (st : BState) (text : List Char) (h : BInv st) :
    BInv (ruleJump st text) :=
  inv_mk st h _ _ _ _ _ _ h.stackNe (keep_stack_ok st h)
    (keep_sw_ok st h) (parent_edge_ok st h)

theorem inv_ruleNormal (st : BState) (text : List Char) (h : BInv st) :
    BInv (ruleNormal st text) :=
  inv_mk st h _ _ _ _ _ _ (replaceHead_ne h.stackNe) (replace_stack_ok st h)
    (keep_sw_ok st h) (parent_edge_ok st h)

theorem inv_classify (st : BState) (text : List Char) (h : BInv st) :
    BInv (classify st text) := by
  unfold classify
  split
  · exact inv_ruleIf st text h
  · split
    · exact inv_ruleElse st text h
    · split
      · exact inv_ruleSwitch st text h
      · split
        · exact inv_ruleCase st text h
        · split
          · exact inv_ruleLoop st text h
          · split
            · exact inv_ruleDo st text h
            · split
              · exact inv_ruleTry st text h
              · split
                · exact inv_ruleCatch st text h
                · split
                  · exact inv_ruleJump st text h
                  · exact inv_ruleNormal st text h

theorem inv_popScope (st : BState) (h : BInv st) : BInv (popScope st) := by
  unfold popScope
  split
  · rename_i hlen
    refine ⟨?_, ?_, ?_, h.edgesOk, h.counterLen, h.node0⟩
    · have h0 : 0 < st.stack.tail.length := by
        rw [List.length_tail]; omega
      exact List.ne_nil_of_length_pos h0
    · intro x hx
      exact h.stackOk x (mem_of_tail hx)
    · intro s hs
      revert hs
      split
      · rename_i s0 rest heq
        split
        · intro hs
          exact h.swOk s (heq ▸ List.mem_cons_of_mem _ hs)
        · intro hs
          exact h.swOk s (heq ▸ hs)
      · intro hs
        exact absurd hs (List.not_mem_nil s)
  · exact h

theorem inv_step (st : BState) (text : List Char) (h : BInv st) :
    BInv (step st text) := by
  unfold step
  split
  · split
    · exact ⟨h.stackNe, h.stackOk, h.swOk, h.edgesOk, h.counterLen, h.node0⟩
    · exact h
  · split
    · exact h
    · split
      · exact ⟨h.stackNe, h.stackOk, h.swOk, h.edgesOk, h.counterLen, h.node0⟩
      · split
        · exact h
        · split
          · split
            · exact ⟨h.stackNe, h.stackOk, h.swOk, h.edgesOk, h.counterLen, h.node0⟩
            · split
              · exact inv_popScope st h
              · exact inv_classify (popScope st) text (inv_popScope st h)
          · split
            · exact h
            · exact inv_classify st text h

theorem inv_foldl (lines : List (List Char)) :
    ∀ st : BState, BInv st → BInv (List.foldl step st lines) := by
  induction lines with
  | nil => intro st h; exact h
  | cons l ls ih => intro st h; exact ih (step st l) (inv_step st l h)

theorem inv_init : BInv initState := by
  constructor <;> simp [initState, nodeIds, startId]

theorem inv_runLines (lines : List (List Char)) : BInv (runLines lines) :=
  inv_foldl lines initState inv_init

theorem mem_ids_reverse {x : List Char} {st : BState} (hx : x ∈ nodeIds st) :
    x ∈ (st.nodes.reverse).map Node.id := by
  rw [List.map_reverse, List.mem_reverse]
  exact hx

/-- C7: for every input text — in particular text with more closing than
opening braces — and after every number of processed statements, the scope
stack depth never drops below 1: the guarded pops never empty the stack, so
the synthetic root position is never popped.  (Absence of exceptions is the
totality of `runLines`/`parseFlowchart`, which are total Lean functions
whose only unguarded array reads are modelled by `headD`.) -/
theorem scope_depth_ge_one (code : String) (n : Nat) :
    1 ≤ (runLines ((linesOf code.data).take n)).stack.length :=
  List.length_pos.mpr (inv_runLines ((linesOf code.data).take n)).stackNe

/-- C2 (counterexample): on the empty input the output declares the
synthetic edge `Start --> Node0` but no `Node0` node, so the output is not
well-formed: the claim fails when the node count is zero. -/
theorem parse_wf_cex : ¬ WellFormed (parseFlowchart "") :=
  fun h => absurd ((h startEdge (by decide)).2) (by decide)

/-- C2 (amended): `parseFlowchart` is total, and every edge the builder
emits references only declared node ids (the source possibly the declared
root `Start`); the single exception is the synthetic pre-loop edge
`Start --> Node0`, whose target is declared exactly when at least one node
is created, so whenever any statement produces a node the whole output is
well-formed. -/
theorem parse_edges_wf (code : String) :
    (∀ e ∈ (runLines (linesOf code.data)).edges,
        (e.src = startId ∨ e.src ∈ nodeIds (runLines (linesOf code.data))) ∧
          e.tgt ∈ nodeIds (runLines (linesOf code.data))) ∧
      ((runLines (linesOf code.data)).nodes ≠ [] → WellFormed (parseFlowchart code)) := by
  have h := inv_runLines (linesOf code.data)
  refine ⟨h.edgesOk, ?_⟩
  intro hne e he
  have hids : flowIds (parseFlowchart code) =
      startId :: ((runLines (linesOf code.data)).nodes.reverse).map Node.id := rfl
  rcases List.mem_cons.mp he with rfl | he2
  · constructor
    · rw [hids]; exact List.mem_cons_self _ _
    · rw [hids]
      have h0 : ("Node0").data ∈ nodeIds (runLines (linesOf code.data)) := h.node0 hne
      have h02 : startEdge.tgt ∈ nodeIds (runLines (linesOf code.data)) := by
        have heq : startEdge.tgt = ("Node0").data := by decide
        rw [heq]; exact h0
      exact List.mem_cons_of_mem _ (mem_ids_reverse h02)
  · have he3 : e ∈ (runLines (linesOf code.data)).edges := List.mem_reverse.mp he2
    have h2 := h.edgesOk e he3
    rw [hids]
    constructor
    · rcases h2.1 with hsrc | hsrc
      · rw [hsrc]; exact List.mem_cons_self _ _
      · exact List.mem_cons_of_mem _ (mem_ids_reverse hsrc)
    · exact List.mem_cons_of_mem _ (mem_ids_reverse h2.2)

/-- C2 (witness): a concrete input with one statement, hence a created
`Node0`; the amended theorem yields well-formedness of the full output. -/
theorem parse_edges_wf_w : WellFormed (parseFlowchart "x();") :=
  (parse_edges_wf "x();").2 (by decide)

/-- C1 (counterexample): processing `switch (n) {`, `case 1:`, `x();`, `}`
leaves the switch-context stack non-empty (the claim asserts it is empty
again), and already after `case 1:` the switch entry `Node0` is no longer
present on the scope stack (the claim asserts every entry is). -/
theorem switch_ctx_cex :
    ¬ ((runLines [("switch (n) \x7b").data, ("case 1:").data, ("x();").data,
          ("\x7d").data]).switchStack = []) ∧
    (runLines [("switch (n) \x7b").data, ("case 1:").data, ("x();").data,
        ("\x7d").data]).switchStack = [{ id := ("Node0").data, hasDefault := false }] ∧
    ("Node0").data ∉ (runLines [("switch (n) \x7b").data, ("case 1:").data]).stack ∧
    (runLines [("switch (n) \x7b").data, ("case 1:").data]).switchStack
      = [{ id := ("Node0").data, hasDefault := false }] := by
  exact ⟨by decide, by decide, by decide, by decide⟩

/-- C1 (amended): a closing brace pops the switch-context stack only when
the scope-stack top still equals the switch header's id — as for an empty
switch body — while after `switch (n) {`, `case 1:`, `x();`, `}` the entry
for the header `Node0` is still on the switch-context stack (the `case` and
statement rules replaced the scope-stack top, so the comparison at the brace
fails and the entry leaks). -/
theorem switch_ctx_amended :
    (runLines [("switch (n) \x7b").data, ("case 1:").data, ("x();").data,
        ("\x7d").data]).switchStack = [{ id := ("Node0").data, hasDefault := false }] ∧
    (runLines [("switch (n) \x7b").data, ("case 1:").data, ("x();").data,
        ("\x7d").data]).stack = [startId] ∧
    (runLines [("switch (n) \x7b").data, ("\x7d").data]).switchStack = [] ∧
    (runLines [("switch (n) \x7b").data, ("\x7d").data]).stack = [startId] := by
  exact ⟨by decide, by decide, by decide, by decide⟩

/-- C3: evaluation at the failing input.  The one-line `struct S { ... };`
statement matches the ignore rule and increments `IgnoreDepth`, but the `}`
on the same line never decrements it (the rule `continue`s first), so
`doWork();` is suppressed too: the builder emits zero nodes instead of the
one node for `doWork();` the claim (and the spec example) requires. -/
theorem struct_oneline_eval :
    (runLines (linesOf
        ("struct S \x7b int x; void f()\x7b return; \x7d \x7d;\ndoWork();").data)).nodes = [] ∧
    (runLines (linesOf
        ("struct S \x7b int x; void f()\x7b return; \x7d \x7d;\ndoWork();").data)).ignore = 1 ∧
    (parseFlowchart "struct S \x7b int x; void f()\x7b return; \x7d \x7d;\ndoWork();").nodes
      = [startNode] := by
  exact ⟨by decide, by decide, by decide⟩

/-- C4 (counterexample): the entity-escaping passes are not idempotent: the
`&` introduced by escaping is escaped again on a second run, so
`cleanLabel (cleanLabel "&") = "&amp;amp;" ≠ "&amp;" = cleanLabel "&"`. -/
theorem cleanLabel_not_idem :
    cleanLabel (cleanLabel ("&").data) ≠ cleanLabel ("&").data ∧
    cleanLabel ("&").data = ("&amp;").data ∧
    cleanLabel (cleanLabel ("&").data) = ("&amp;amp;").data := by
  exact ⟨by decide, by decide, by decide⟩

/-- C5: evaluation at the failing input (the statements of
`switch (n) { case 1: x(); break; case 2: y(); break; }`, one per line).
The switch header, the two case nodes with tagged edges from the header, and
the two `break;` terminator nodes all appear as claimed, but the edge tags
are `case 1` / `case 2` — the label as written with the colon removed — not
the capitalized `Case 1` / `Case 2` that the claim, the specification, and
the code's own comment (`"case 1:" -> "Case 1"`) state. -/
theorem switch_case_eval :
    (parseFlowchart
        "switch (n) \x7b\ncase 1:\nx();\nbreak;\ncase 2:\ny();\nbreak;\n\x7d").nodes =
      [startNode,
       { id := ("Node0").data, label := ("Switch: n").data,
         shape := Shape.brace, cls := some ("switchNode").data },
       { id := ("Node1").data, label := ("case 1").data,
         shape := Shape.square, cls := some ("decision").data },
       { id := ("Node2").data, label := ("x();").data,
         shape := Shape.square, cls := some ("process").data },
       { id := ("Node3").data, label := ("break;").data,
         shape := Shape.doubleCircle, cls := some ("terminator").data },
       { id := ("Node4").data, label := ("case 2").data,
         shape := Shape.square, cls := some ("decision").data },
       { id := ("Node5").data, label := ("y();").data,
         shape := Shape.square, cls := some ("process").data },
       { id := ("Node6").data, label := ("break;").data,
         shape := Shape.doubleCircle, cls := some ("terminator").data }] ∧
    (parseFlowchart
        "switch (n) \x7b\ncase 1:\nx();\nbreak;\ncase 2:\ny();\nbreak;\n\x7d").edges =
      [startEdge,
       { src := startId, tgt := ("Node0").data, dashed := false, tag := none },
       { src := ("Node0").data, tgt := ("Node1").data, dashed := false,
         tag := some ("case 1").data },
       { src := ("Node1").data, tgt := ("Node2").data, dashed := false, tag := none },
       { src := ("Node2").data, tgt := ("Node3").data, dashed := false, tag := none },
       { src := ("Node0").data, tgt := ("Node4").data, dashed := false,
         tag := some ("case 2").data },
       { src := ("Node4").data, tgt := ("Node5").data, dashed := false, tag := none },
       { src := ("Node5").data, tgt := ("Node6").data, dashed := false, tag := none }] := by
  exact ⟨by decide, by decide⟩

/-- C9 (counterexample): for `if (x) {`, `a();`, `} else {` the brace
handling pops once, but the else rule does NOT fire — the line starts with
`}`, not `else` — so the line falls to the ordinary-statement rule: it
becomes a `default` node labeled `  else  ` (braces blanked) that REPLACES
the scope-stack top instead of being pushed above it; afterwards the stack
is `[Node2]` and `Start` is no longer on it, contradicting the claimed
second pop plus push. -/
theorem brace_else_cex :
    (runLines [("if (x) \x7b").data, ("a();").data, ("\x7d else \x7b").data]).stack
      = [("Node2").data] ∧
    startId ∉ (runLines [("if (x) \x7b").data, ("a();").data, ("\x7d else \x7b").data]).stack ∧
    (runLines [("if (x) \x7b").data, ("a();").data, ("\x7d else \x7b").data]).nodes.head?
      = some { id := ("Node2").data, label := ("  else  ").data,
               shape := Shape.square, cls := some ("default").data } := by
  exact ⟨by decide, by decide, by decide⟩

theorem map_id_of {α : Type} (f : α → α) :
    ∀ l : List α, (∀ a ∈ l, f a = a) → l.map f = l := by
  intro l
  induction l with
  | nil => intro _; rfl
  | cons a t ih =>
    intro h
    rw [List.map_cons, h a (List.mem_cons_self a t),
      ih (fun b hb => h b (List.mem_cons_of_mem a hb))]

theorem escapeAll_id (t : Char) (rep : List Char) :
    ∀ l : List Char, (∀ c ∈ l, c ≠ t) → escapeAll t rep l = l := by
  intro l
  induction l with
  | nil => intro _; rfl
  | cons a r ih =>
    intro h
    unfold escapeAll
    rw [if_neg (h a (List.mem_cons_self a r)),
      ih (fun c hc => h c (List.mem_cons_of_mem a hc))]
    rfl

theorem escapeAll_mem (t : Char) (rep : List Char) :
    ∀ (l : List Char) (c : Char), c ∈ escapeAll t rep l → c ∈ rep ∨ c ∈ l := by
  intro l
  induction l with
  | nil => intro c hc; exact absurd hc (List.not_mem_nil c)
  | cons a r ih =>
    intro c hc
    unfold escapeAll at hc
    rcases List.mem_append.mp hc with h1 | h2
    · by_cases ha : a = t
      · rw [if_pos ha] at h1
        exact Or.inl h1
      · rw [if_neg ha] at h1
        rcases List.mem_singleton.mp h1 with rfl
        exact Or.inr (List.mem_cons_self c r)
    · rcases ih c h2 with h | h
      · exact Or.inl h
      · exact Or.inr (List.mem_cons_of_mem a h)

theorem brackquote_cases (a : Char) :
    (brackRep (quoteRep a) = a ∧ a ≠ quoteChar ∧ ¬ isBracketChar a) ∨
      brackRep (quoteRep a) = ' ' ∨ brackRep (quoteRep a) = apostChar := by
  unfold brackRep quoteRep
  by_cases hq : a = quoteChar
  · rw [if_pos hq]
    rw [if_neg (by decide : ¬ isBracketChar apostChar)]
    exact Or.inr (Or.inr rfl)
  · rw [if_neg hq]
    by_cases hb : isBracketChar a
    · rw [if_pos hb]
      exact Or.inr (Or.inl rfl)
    · rw [if_neg hb]
      exact Or.inl ⟨rfl, hq, hb⟩

theorem brackquote_not_unsafe (a : Char) : ¬ mermaidUnsafe (brackRep (quoteRep a)) := by
  rcases brackquote_cases a with ⟨heq, hq, hb⟩ | heq | heq <;> rw [heq]
  · intro hu
    rcases hu with h | h
    · exact hq h
    · exact hb h
  · decide
  · decide

theorem mem_double_map {c : Char} {s : List Char}
    (hc : c ∈ (s.map quoteRep).map brackRep) :
    ∃ a ∈ s, brackRep (quoteRep a) = c := by
  rcases List.mem_map.mp hc with ⟨y, hy, hyc⟩
  rcases List.mem_map.mp hy with ⟨a, ha, hay⟩
  exact ⟨a, ha, by rw [hay, hyc]⟩

theorem cleanLabel_no_unsafe (s : List Char) (c : Char) (hc : c ∈ cleanLabel s) :
    ¬ mermaidUnsafe c := by
  simp only [cleanLabel] at hc
  have hmem_s2 : ∀ d, d ∈ (s.map quoteRep).map brackRep → ¬ mermaidUnsafe d := by
    intro d hd
    rcases mem_double_map hd with ⟨a, _, hda⟩
    rw [← hda]
    exact brackquote_not_unsafe a
  have hmem_s3 : ∀ d, d ∈ escapeAll '>' ("&gt;").data
      (escapeAll '<' ("&lt;").data
        (escapeAll '&' ("&amp;").data ((s.map quoteRep).map brackRep))) →
      ¬ mermaidUnsafe d := by
    intro d hd
    rcases escapeAll_mem _ _ _ _ hd with hgt | hd2
    · simp at hgt
      rcases hgt with rfl | rfl | rfl | rfl <;> decide
    · rcases escapeAll_mem _ _ _ _ hd2 with hlt | hd3
      · simp at hlt
        rcases hlt with rfl | rfl | rfl | rfl <;> decide
      · rcases escapeAll_mem _ _ _ _ hd3 with hamp | hd4
        · simp at hamp
          rcases hamp with rfl | rfl | rfl | rfl | rfl <;> decide
        · exact hmem_s2 d hd4
  split at hc
  · rcases List.mem_append.mp hc with h1 | h1
    · exact hmem_s3 c (List.take_subset _ _ h1)
    · simp at h1
      rcases h1 with rfl
      decide
  · exact hmem_s3 c hc

/-- C10: the output of `cleanLabel` never contains a double quote nor a
square-bracket or curly-brace character: quotes become apostrophes, brackets
and braces become spaces, and the entity-escaping and truncation steps
introduce only characters from `&amp;`/`&lt;`/`&gt;`/`...`, none of which
are unsafe. -/
theorem cleanLabel_safe (s : List Char) (c : Char) (hc : c ∈ cleanLabel s) :
    ¬ mermaidUnsafe c :=
  cleanLabel_no_unsafe s c hc

/-- C10 (witness): a concrete sanitized label containing a character that
the theorem then certifies to be neither a quote nor a bracket. -/
theorem cleanLabel_safe_w :
    ('a' ∈ cleanLabel ("a(b)=c;").data) ∧ ¬ mermaidUnsafe 'a' :=
  ⟨by decide, cleanLabel_safe (("a(b)=c;").data) 'a' (by decide)⟩

theorem cleanLabel_chars (s : List Char)
    (h : ∀ c ∈ s, c ≠ '&' ∧ c ≠ '<' ∧ c ≠ '>') :
    ∀ d ∈ cleanLabel s, d ≠ '&' ∧ d ≠ '<' ∧ d ≠ '>' := by
  simp only [cleanLabel]
  have hs2 : ∀ d, d ∈ (s.map quoteRep).map brackRep → d ≠ '&' ∧ d ≠ '<' ∧ d ≠ '>' := by
    intro d hd
    rcases mem_double_map hd with ⟨a, ha, hda⟩
    rcases brackquote_cases a with ⟨heq, _, _⟩ | heq | heq <;> rw [heq] at hda <;> rw [← hda]
    · exact h a ha
    · exact ⟨by decide, by decide, by decide⟩
    · exact ⟨by decide, by decide, by decide⟩
  rw [escapeAll_id '&' _ _ (fun c hc => (hs2 c hc).1),
    escapeAll_id '<' _ _ (fun c hc => (hs2 c hc).2.1),
    escapeAll_id '>' _ _ (fun c hc => (hs2 c hc).2.2)]
  split
  · intro d hd
    rcases List.mem_append.mp hd with h1 | h1
    · exact hs2 d (List.take_subset _ _ h1)
    · simp at h1
      rcases h1 with rfl
      exact ⟨by decide, by decide, by decide⟩
  · exact hs2

/-- C4 (amended): `cleanLabel` is idempotent on every input free of the
entity-escaped characters `&`, `<`, `>`: quote and bracket replacement map
into characters they leave alone, the entity passes are then the identity,
and a truncated label (47 characters plus the 3-character ellipsis) is at
most 50 characters long, so a second run changes nothing.  (On inputs with
`&`, `<` or `>` idempotence fails, see the counterexample.) -/
theorem cleanLabel_idem (s : List Char)
    (h : ∀ c ∈ s, c ≠ '&' ∧ c ≠ '<' ∧ c ≠ '>') :
    cleanLabel (cleanLabel s) = cleanLabel s := by
  have ht := cleanLabel_chars s h
  have htu : ∀ d ∈ cleanLabel s, ¬ mermaidUnsafe d :=
    fun d hd => cleanLabel_no_unsafe s d hd
  have hlen : ¬ 50 < (cleanLabel s).length := by
    simp only [cleanLabel]
    split
    · rw [List.length_append, List.length_take]
      have h3 : (("...").data).length = 3 := by decide
      rw [h3]
      have := Nat.min_le_left 47
        ((escapeAll '>' ("&gt;").data (escapeAll '<' ("&lt;").data
          (escapeAll '&' ("&amp;").data ((s.map quoteRep).map brackRep)))).length)
      omega
    · rename_i hle
      exact hle
  set t := cleanLabel s with hts
  simp only [cleanLabel]
  rw [map_id_of quoteRep t (fun a ha => by
        unfold quoteRep
        exact if_neg (fun hq => (htu a ha) (Or.inl hq)))]
  rw [map_id_of brackRep t (fun a ha => by
        unfold brackRep
        exact if_neg (fun hb => (htu a ha) (Or.inr hb)))]
  rw [escapeAll_id '&' _ t (fun c hc => (ht c hc).1),
    escapeAll_id '<' _ t (fun c hc => (ht c hc).2.1),
    escapeAll_id '>' _ t (fun c hc => (ht c hc).2.2)]
  rw [if_neg hlen]

/-- C4 (witness): idempotence at a concrete label free of `&`, `<`, `>`. -/
theorem cleanLabel_idem_w :
    cleanLabel (cleanLabel ("x = y + 1;").data) = cleanLabel ("x = y + 1;").data :=
  cleanLabel_idem (("x = y + 1;").data) (by decide)

theorem isPrefixOf_exists {p l : List Char} (h : p.isPrefixOf l = true) :
    ∃ t, l = p ++ t := by
  induction p generalizing l with
  | nil => exact ⟨l, rfl⟩
  | cons a p ih =>
    cases l with
    | nil => simp [List.isPrefixOf] at h
    | cons b l =>
      rw [List.isPrefixOf] at h
      rcases Bool.and_eq_true_iff.mp h with ⟨h1, h2⟩
      have hab : a = b := by
        have := of_decide_eq_true (by exact h1)
        exact this
      subst hab
      obtain ⟨t, ht⟩ := ih h2
      exact ⟨t, by rw [ht]; rfl⟩

theorem isPrefixOf_le_length {p l : List Char} (h : p.isPrefixOf l = true) :
    p.length ≤ l.length := by
  obtain ⟨t, rfl⟩ := isPrefixOf_exists h
  rw [List.length_append]
  omega

theorem isPrefixOf_self (l : List Char) : l.isPrefixOf l = true := by
  induction l with
  | nil => rfl
  | cons a t ih => simp [List.isPrefixOf, ih]

theorem matchKwAt_self (kw : List Char) : matchKwAt kw kw = none := by
  unfold matchKwAt
  rw [if_pos (isPrefixOf_self kw), List.drop_length]
  rfl

theorem findKwParen_short : ∀ text kw : List Char, text.length < kw.length →
    findKwParen text kw = none := by
  intro text
  induction text with
  | nil =>
    intro kw h
    unfold findKwParen matchKwAt
    have hnp : ¬ (kw.isPrefixOf ([] : List Char) = true) := by
      intro hp
      have hle := isPrefixOf_le_length hp
      simp only [List.length_nil] at hle h
      omega
    rw [if_neg hnp]
  | cons c rest ih =>
    intro kw h
    unfold findKwParen
    have hm : matchKwAt (c :: rest) kw = none := by
      unfold matchKwAt
      rw [if_neg (fun hp => absurd (isPrefixOf_le_length hp) (by omega))]
    rw [hm]
    exact ih kw (by simp at h ⊢; omega)

theorem findKwParen_self (kw : List Char) : findKwParen kw kw = none := by
  cases kw with
  | nil =>
    unfold findKwParen
    exact matchKwAt_self []
  | cons c rest =>
    unfold findKwParen
    rw [matchKwAt_self (c :: rest)]
    exact findKwParen_short rest (c :: rest) (by simp)

theorem replaceFirstStr_self (l : List Char) : replaceFirstStr l l = [] := by
  cases l with
  | nil => rfl
  | cons c rest =>
    unfold replaceFirstStr
    rw [if_pos (isPrefixOf_self (c :: rest))]
    exact List.drop_length _

/-- C6 (counterexample): `extractCondition "if" "if"` — a control statement
consisting of the keyword alone — takes the fallback (the regex finds no
parenthesized group) and returns the EMPTY label, falsifying ‘for every
control statement this fallback yields a non-empty label’. -/
theorem extractCondition_empty_cex :
    findKwParen ("if").data ("if").data = none ∧
    extractCondition ("if").data ("if").data = [] := by
  exact ⟨by decide, by decide⟩

/-- C6 (amended): `extractCondition` is total; it takes the fallback — the
text with the first keyword occurrence and all parentheses stripped and
trimmed — both when the regex finds no parenthesized group after the
keyword and when the captured group is empty (the source checks the
truthiness of `match[1]`).  This fallback label may be EMPTY: for a text
equal to the keyword itself it always is, so not every control statement
yields a non-empty label. -/
theorem extractCondition_fallback :
    (∀ text kw : List Char,
        (findKwParen text kw = none ∨ findKwParen text kw = some []) →
        extractCondition text kw =
          trimJs ((replaceFirstStr text kw).filter (fun c => !(c == '(' || c == ')')))) ∧
      (∀ kw : List Char, extractCondition kw kw = []) := by
  constructor
  · intro text kw h
    unfold extractCondition
    rcases h with h | h
    · rw [h]
    · rw [h]
      rfl
  · intro kw
    unfold extractCondition
    rw [findKwParen_self kw]
    simp only [replaceFirstStr_self kw]
    rfl

/-- C6 (witness): the fallback equation exercised at `if ()x` with keyword
`if` — the regex matches but captures the empty group, so the fallback
fires and yields `x`, exactly as in the source. -/
theorem extractCondition_fallback_w :
    findKwParen ("if ()x").data ("if").data = some [] ∧
    extractCondition ("if ()x").data ("if").data =
      trimJs ((replaceFirstStr ("if ()x").data ("if").data).filter
        (fun c => !(c == '(' || c == ')'))) ∧
    extractCondition ("if ()x").data ("if").data = ("x").data :=
  ⟨by decide,
   extractCondition_fallback.1 (("if ()x").data) (("if").data) (Or.inr (by decide)),
   by decide⟩

theorem jump_guards (text : List Char) (hj : isJump text = true) :
    startsIgnoreKw text = false ∧ isSkipLine text = false ∧
    startsWithL text "if" = false ∧ startsWithL text "else if" = false ∧
    startsWithL text "else" = false ∧ startsWithL text "switch" = false ∧
    startsWithL text "case" = false ∧ startsWithL text "default" = false ∧
    startsWithL text "while" = false ∧ startsWithL text "for" = false ∧
    startsWithL text "do" = false ∧ startsWithL text "try" = false ∧
    startsWithL text "catch" = false := by
  have hj2 : ("return").data.isPrefixOf text = true ∨
      ("break").data.isPrefixOf text = true ∨
      ("continue").data.isPrefixOf text = true ∨
      ("goto").data.isPrefixOf text = true ∨
      ("throw").data.isPrefixOf text = true := by
    simpa [isJump, jumpKws] using hj
  rcases hj2 with h | h | h | h | h <;>
    obtain ⟨t, rfl⟩ := isPrefixOf_exists h <;>
    exact ⟨rfl, rfl, rfl, rfl, rfl, rfl, rfl, rfl, rfl, rfl, rfl, rfl, rfl⟩

theorem step_eq_ruleJump (st : BState) (text : List Char)
    (hj : isJump text = true) (hi : st.ignore = 0)
    (hob : text.contains '\x7b' = false) (hcb : text.contains '\x7d' = false) :
    step st text = ruleJump st text := by
  obtain ⟨g1, g2, g3, g4, g5, g6, g7, g8, g9, g10, g11, g12, g13⟩ := jump_guards text hj
  have hob2 : '\x7b' ∉ text := by simpa using hob
  have hcb2 : '\x7d' ∉ text := by simpa using hcb
  unfold step classify
  simp [g1, g2, g3, g4, g5, g6, g7, g8, g9, g10, g11, g12, g13, hi, hob, hcb, hj, hob2, hcb2]

/-- C8: a statement beginning with `return`, `break`, `continue`, `goto` or
`throw` that reaches the classifier (ignore depth 0 and no brace characters,
so no skip or brace rule intervenes) creates exactly one terminator node and
one solid untagged edge from the current parent, and leaves the scope stack,
the switch-context stack and the ignore-depth counter unchanged. -/
theorem jump_frame (st : BState) (text : List Char)
    (hj : isJump text = true) (hi : st.ignore = 0)
    (hob : text.contains '\x7b' = false) (hcb : text.contains '\x7d' = false) :
    (step st text).stack = st.stack ∧
    (step st text).switchStack = st.switchStack ∧
    (step st text).ignore = st.ignore ∧
    (step st text).nodes =
      { id := nodeName st.counter, label := cleanLabel text,
        shape := Shape.doubleCircle, cls := some ("terminator").data } :: st.nodes ∧
    (step st text).edges =
      { src := st.stack.headD jsUndefined, tgt := nodeName st.counter,
        dashed := false, tag := none } :: st.edges := by
  rw [step_eq_ruleJump st text hj hi hob hcb]
  exact ⟨rfl, rfl, rfl, rfl, rfl⟩

/-- C8 (witness): the frame property at the statement `return 0;` in the
initial state. -/
theorem jump_frame_w :
    isJump ("return 0;").data = true ∧
    (step initState ("return 0;").data).stack = initState.stack ∧
    (step initState ("return 0;").data).switchStack = initState.switchStack ∧
    (step initState ("return 0;").data).ignore = initState.ignore :=
  ⟨by decide,
   (jump_frame initState (("return 0;").data) (by decide) (by decide)
     (by decide) (by decide)).1,
   (jump_frame initState (("return 0;").data) (by decide) (by decide)
     (by decide) (by decide)).2.1,
   (jump_frame initState (("return 0;").data) (by decide) (by decide)
     (by decide) (by decide)).2.2.1⟩

/-- C9 (amended): with ignore depth 0, a statement containing `}` that is
not exactly `}` or `};` (and is not captured by the earlier
struct/preprocessor skip rules) first pops the scope stack via the guarded
brace handling and is then classified by the normal rules — but for
`} else {` the classifier's else rule does NOT fire (the line starts with
`}`, not `else`): the line becomes an ordinary `default` node that replaces
the scope-stack top, with label `  else  `. -/
theorem brace_then_rules :
    (∀ (st : BState) (text : List Char),
        st.ignore = 0 → text.contains '\x7d' = true →
        startsIgnoreKw text = false → isSkipLine text = false →
        text ≠ ("\x7d").data → text ≠ ("\x7d;").data →
        step st text = classify (popScope st) text) ∧
    (runLines [("if (x) \x7b").data, ("a();").data, ("\x7d else \x7b").data]).stack
      = [("Node2").data] ∧
    (runLines [("if (x) \x7b").data, ("a();").data, ("\x7d else \x7b").data]).nodes.head?
      = some { id := ("Node2").data, label := ("  else  ").data,
               shape := Shape.square, cls := some ("default").data } := by
  refine ⟨?_, by decide, by decide⟩
  intro st text hi hcb hik hsk hne1 hne2
  have hcb2 : '\x7d' ∈ text := by simpa using hcb
  unfold step
  simp [hik, hsk, hi, hcb, hcb2, hne1, hne2]

/-- C9 (witness): the brace-then-classify equation at the concrete line
`} else {` in the initial state. -/
theorem brace_then_rules_w :
    step initState (("\x7d else \x7b").data) =
      classify (popScope initState) (("\x7d else \x7b").data) :=
  brace_then_rules.1 initState (("\x7d else \x7b").data) (by decide) (by decide)
    (by decide) (by decide) (by decide) (by decide)
